import Mathlib

/-!
# Verification of `simplestoring.py` (samuelspiza/simplestoring)

Shallow embedding of the single source file `src/simplestoring.py`:
a path-addressable persistent JSON store.  The Python program keeps, per
namespace (file name), one root store owning an in-memory JSON document
(`_value`) and a backing file; derived sub-stores delegate every operation
to their parent with their own key prefixed to the path.

Modelling conventions:
* JSON values are the inductive `JValue`; Python dicts become ordered
  association lists (`aset` mirrors in-place dict assignment: it replaces
  the value of an existing key in place and appends a missing key).
* The codec and file I/O collaborators are abstracted: the file system
  `Sys.files` maps a file name directly to the decoded `JValue` the file
  holds (json.dump followed by json.load is the identity at this level of
  abstraction), so `_write` stores the document and `os.path.exists` is
  lookup success.
* Python exceptions become the `Err` inductive; every stateful operation
  returns `Except Err α × Sys`, where an exception leaves the process
  state as it was (the second component).
* `Stores._stores` (the process-wide registry) and each handle's `_subs`
  table are flattened into `Sys`: per root store we keep the set of
  resolved derived-handle paths with the kind (dict/list sub-store) each
  was created with.  A handle object is the inductive `Handle`: either a
  root (file name) or a sub-handle of a parent with one key segment,
  exactly the object graph the Python classes build.
-/

namespace SimpleStoring

/-- A path segment / dictionary key.  The library addresses documents by
dictionary keys, which are strings. -/
abbrev Seg := String

/-- JSON values: the documents `json.load`/`json.dump` work with.
Objects are ordered field lists (Python dicts preserve insertion order). -/
inductive JValue where
  | null
  | bool (b : Bool)
  | num (n : Int)
  | str (s : String)
  | arr (elems : List JValue)
  | obj (fields : List (String × JValue))

/-- Python exceptions that the library's code paths can raise. -/
inductive Err where
  | keyError
  | typeError
  | indexError
  | attributeError
  | unboundLocal
deriving DecidableEq

/-- Kind of a store node: `Store`/`SubStore` (dict-rooted) versus
`ListStore`/`ListSubStore` (list-rooted). -/
inductive StoreKind where
  | dict
  | list
deriving DecidableEq

/-- Association-list lookup (Python `d[k]` / `k in d` on dicts). -/
def alookup {κ α : Type} [DecidableEq κ] : List (κ × α) → κ → Option α
  | [], _ => none
  | (k', v) :: rest, k => if k' = k then some v else alookup rest k

/-- Association-list assignment (Python `d[k] = v`): replaces the value at
an existing key in place, appends the pair when the key is absent. -/
def aset {κ α : Type} [DecidableEq κ] : List (κ × α) → κ → α → List (κ × α)
  | [], k, v => [(k, v)]
  | (k', v') :: rest, k, v =>
      if k' = k then (k, v) :: rest else (k', v') :: aset rest k v

/-- Association-list deletion (Python `del d[k]`): `none` when the key is
absent (KeyError). -/
def adel {κ α : Type} [DecidableEq κ] : List (κ × α) → κ → Option (List (κ × α))
  | [], _ => none
  | (k', v') :: rest, k =>
      if k' = k then some rest else (adel rest k).map (fun l => (k', v') :: l)

/-- Association-list in-place modification of the value at `k` (used for
mutating one root store inside the registry); the list is unchanged when
the key is absent. -/
def amod {κ α : Type} [DecidableEq κ] : List (κ × α) → κ → (α → α) → List (κ × α)
  | [], _, _ => []
  | (k', v') :: rest, k, g =>
      if k' = k then (k', g v') :: rest else (k', v') :: amod rest k g

/-- Structural equality test on JSON values, modelling Python `==` on
decoded JSON data (used by `in` membership tests). -/
def jBeq : JValue → JValue → Bool
  | .null, .null => true
  | .bool a, .bool b => a == b
  | .num a, .num b => a == b
  | .str a, .str b => a == b
  | .arr [], .arr [] => true
  | .arr (x :: xs), .arr (y :: ys) => jBeq x y && jBeq (.arr xs) (.arr ys)
  | .obj [], .obj [] => true
  | .obj ((k₁, v₁) :: fs₁), .obj ((k₂, v₂) :: fs₂) =>
      k₁ == k₂ && jBeq v₁ v₂ && jBeq (.obj fs₁) (.obj fs₂)
  | _, _ => false

/-- `chStarts pat s`: `pat` is an initial run of `s` (character lists). -/
def chStarts : List Char → List Char → Bool
  | [], _ => true
  | _ :: _, [] => false
  | a :: as, b :: bs => a == b && chStarts as bs

/-- `chHas pat s`: `pat` occurs contiguously inside `s` (character lists);
models Python `sub in string`. -/
def chHas : List Char → List Char → Bool
  | pat, [] => pat.isEmpty
  | pat, s@(_ :: rest) => chStarts pat s || chHas pat rest

/-- One indexing step `ret[key]` with a string key: dict lookup (KeyError
when absent); a string index into a list, or indexing a scalar, is a
TypeError. -/
def getItem : JValue → Seg → Except Err JValue
  | .obj fields, k =>
      match alookup fields k with
      | some v => .ok v
      | none => .error .keyError
  | _, _ => .error .typeError

/-- The walk loop `for key in path: ret = ret[key]` of `get`/`append`/
`contains`. -/
def walk : JValue → List Seg → Except Err JValue
  | v, [] => .ok v
  | v, k :: ks =>
      match getItem v k with
      | .ok w => walk w ks
      | .error e => .error e

/-- Final-segment assignment `tmp[k] = v`: dict assignment, or TypeError
on a list (string index) or scalar. -/
def setItem : JValue → Seg → JValue → Except Err JValue
  | .obj fields, k, v => .ok (.obj (aset fields k v))
  | _, _, _ => .error .typeError

/-- Final-segment deletion `del tmp[k]`. -/
def delItem : JValue → Seg → Except Err JValue
  | .obj fields, k =>
      match adel fields k with
      | some fields' => .ok (.obj fields')
      | none => .error .keyError
  | _, _ => .error .typeError

/-- `BaseStoreSkelleton.set` body on the document: walk `path[:-1]`, then
`tmp[path[-1]] = value`.  An empty path raises IndexError (`path[-1]`).
The functional rebuild of each walked node models Python's in-place
mutation of the shared structure. -/
def setPath : JValue → List Seg → JValue → Except Err JValue
  | _, [], _ => .error .indexError
  | doc, [k], v => setItem doc k v
  | doc, k :: k₂ :: ks, v =>
      match getItem doc k with
      | .ok w =>
          match setPath w (k₂ :: ks) v with
          | .ok w' => setItem doc k w'
          | .error e => .error e
      | .error e => .error e

/-- `BaseStoreSkelleton.delete` body on the document: walk `path[:-1]`,
then `del tmp[path[-1]]`. -/
def delPath : JValue → List Seg → Except Err JValue
  | _, [] => .error .indexError
  | doc, [k] => delItem doc k
  | doc, k :: k₂ :: ks =>
      match getItem doc k with
      | .ok w =>
          match delPath w (k₂ :: ks) with
          | .ok w' => setItem doc k w'
          | .error e => .error e
      | .error e => .error e

/-- `tmp.append(value)`: lists append; anything else lacks the attribute
(AttributeError). -/
def appendVal : JValue → JValue → Except Err JValue
  | .arr xs, v => .ok (.arr (xs ++ [v]))
  | _, _ => .error .attributeError

/-- `BaseStoreSkelleton.append` body on the document: walk `path`, then
`tmp.append(value)`. -/
def appendPath : JValue → List Seg → JValue → Except Err JValue
  | doc, [], v => appendVal doc v
  | doc, k :: ks, v =>
      match getItem doc k with
      | .ok w =>
          match appendPath w ks v with
          | .ok w' => setItem doc k w'
          | .error e => .error e
      | .error e => .error e

/-- Python `value in tmp`: list membership, dict-key membership (the value
is compared against the keys), substring test on strings, TypeError on
scalars. -/
def memberVal (v : JValue) : JValue → Except Err Bool
  | .arr xs => .ok (xs.any (fun x => jBeq v x))
  | .obj fields => .ok (fields.any (fun kv => jBeq v (.str kv.1)))
  | .str s =>
      match v with
      | .str sub => .ok (chHas sub.data s.data)
      | _ => .error .typeError
  | _ => .error .typeError

/-- `BaseStoreSkelleton.contains` body on the document: walk `path`, then
`value in tmp`. -/
def containsPath (doc : JValue) (path : List Seg) (v : JValue) : Except Err Bool :=
  match walk doc path with
  | .ok node => memberVal v node
  | .error e => .error e

/-- State of one root store object (`Store` / `ListStore` instance):
its kind, its in-memory document `_value`, and the flattened `_subs`
tables: every resolved derived-handle path (relative to this root) with
the kind of sub-store created there. -/
structure RootStore where
  kind : StoreKind
  value : JValue
  subs : List (List Seg × StoreKind)

/-- Whole-process state: the registry `Stores._stores` (file name to root
store) and the file system (file name to the decoded document the file
holds). -/
structure Sys where
  stores : List (String × RootStore)
  files : List (String × JValue)

/-- The in-memory document of the root store for `f`, when registered. -/
def docAt (st : Sys) (f : String) : Option JValue :=
  (alookup st.stores f).map (fun r => r.value)

/-- The decoded content of the backing file `f`, when the file exists. -/
def fileAt (st : Sys) (f : String) : Option JValue :=
  alookup st.files f

/-- The flattened `_subs` registry of root `f`. -/
def subsOf (st : Sys) (f : String) : List (List Seg × StoreKind) :=
  match alookup st.stores f with
  | some r => r.subs
  | none => []

/-- `path[0] in self._subs`, flattened: the derived handle at path `p`
under root `f` has already been resolved. -/
def subRegistered (st : Sys) (f : String) (p : List Seg) : Bool :=
  (alookup (subsOf st f) p).isSome

/-- `_write`: `json.dump(self._value, fp, ...)` after the in-memory
document was replaced by `v` — updates the root store's `_value` and
overwrites the whole backing file. -/
def storeWrite (st : Sys) (f : String) (v : JValue) : Sys :=
  { stores := amod st.stores f (fun r => { r with value := v }),
    files := aset st.files f v }

/-- Record a newly constructed sub-store in its parent's `_subs`
(`self._subs[path[0]] = ...`), flattened to the owning root. -/
def regSub (st : Sys) (f : String) (p : List Seg) (kind : StoreKind) : Sys :=
  { st with stores := amod st.stores f (fun r => { r with subs := aset r.subs p kind }) }

/-- `BaseStoreSkelleton.get` with `key=None`: walk the document along
`path`.  (A handle with no registered root can only arise in the model,
not from the program; it reads as a failed registry lookup.) -/
def storeGetPath (st : Sys) (f : String) (path : List Seg) : Except Err JValue :=
  match alookup st.stores f with
  | some r => walk r.value path
  | none => .error .keyError

/-- `BaseStoreSkelleton.get`.  With `key=k` the code runs
`self.get(path=[key])`, discards the result, and then executes
`return ret` with the local `ret` never assigned — an UnboundLocalError
(the recursive call's own exception propagates first). -/
def storeGet (st : Sys) (f : String) (key : Option Seg) (path : List Seg) :
    Except Err JValue :=
  match key with
  | none => storeGetPath st f path
  | some k =>
      match storeGetPath st f [k] with
      | .ok _ => .error .unboundLocal
      | .error e => .error e

/-- `BaseStoreSkelleton.set` with `key=None`: mutate the document, then
`_write`.  On any exception the process state is unchanged. -/
def storeSetPath (st : Sys) (f : String) (v : JValue) (path : List Seg) :
    Except Err Unit × Sys :=
  match alookup st.stores f with
  | none => (.error .keyError, st)
  | some r =>
      match setPath r.value path v with
      | .error e => (.error e, st)
      | .ok doc => (.ok (), storeWrite st f doc)

/-- `BaseStoreSkelleton.set`: `key=k` re-enters with `path=[key]`. -/
def storeSet (st : Sys) (f : String) (key : Option Seg) (v : JValue)
    (path : List Seg) : Except Err Unit × Sys :=
  match key with
  | none => storeSetPath st f v path
  | some k => storeSetPath st f v [k]

/-- `BaseStoreSkelleton.delete` with `key=None`. -/
def storeDeletePath (st : Sys) (f : String) (path : List Seg) :
    Except Err Unit × Sys :=
  match alookup st.stores f with
  | none => (.error .keyError, st)
  | some r =>
      match delPath r.value path with
      | .error e => (.error e, st)
      | .ok doc => (.ok (), storeWrite st f doc)

/-- `BaseStoreSkelleton.delete`: `key=k` re-enters with `path=[key]`. -/
def storeDelete (st : Sys) (f : String) (key : Option Seg) (path : List Seg) :
    Except Err Unit × Sys :=
  match key with
  | none => storeDeletePath st f path
  | some k => storeDeletePath st f [k]

/-- `BaseStoreSkelleton.append`: walk, `tmp.append(value)`, `_write`. -/
def storeAppend (st : Sys) (f : String) (v : JValue) (path : List Seg) :
    Except Err Unit × Sys :=
  match alookup st.stores f with
  | none => (.error .keyError, st)
  | some r =>
      match appendPath r.value path v with
      | .error e => (.error e, st)
      | .ok doc => (.ok (), storeWrite st f doc)

/-- `BaseStoreSkelleton.contains`: walk, `value in tmp`; no side effect. -/
def storeContains (st : Sys) (f : String) (v : JValue) (path : List Seg) :
    Except Err Bool :=
  match alookup st.stores f with
  | none => .error .keyError
  | some r => containsPath r.value path v

/-- A handle object: a root store (`Store`/`ListStore`, identified by its
file name) or a derived sub-store (`SubStore`/`ListSubStore`) holding its
parent handle and one key segment — exactly the Python object graph. -/
inductive Handle where
  | root (file : String)
  | sub (parent : Handle) (key : Seg)
deriving DecidableEq

/-- The file name of the root store this handle ultimately delegates to. -/
def Handle.rootFile : Handle → String
  | .root f => f
  | .sub p _ => p.rootFile

/-- The key segments from the root down to this handle. -/
def Handle.segs : Handle → List Seg
  | .root _ => []
  | .sub p k => p.segs ++ [k]

/-- `get`: a root executes `BaseStoreSkelleton.get`; a sub-store
delegates: `self.parent.get(path=[self.key]+path)` (with `key=k` it
delegates `path=[self.key]+[key]`, ignoring `path`). -/
def Handle.get (st : Sys) : Handle → Option Seg → List Seg → Except Err JValue
  | .root f, key, path => storeGet st f key path
  | .sub p k, none, path => Handle.get st p none (k :: path)
  | .sub p k, some key, _ => Handle.get st p none (k :: [key])

/-- `set`: root executes, sub-store prefixes its key and delegates. -/
def Handle.set (st : Sys) :
    Handle → Option Seg → JValue → List Seg → Except Err Unit × Sys
  | .root f, key, v, path => storeSet st f key v path
  | .sub p k, none, v, path => Handle.set st p none v (k :: path)
  | .sub p k, some key, v, _ => Handle.set st p none v (k :: [key])

/-- `delete`: root executes, sub-store prefixes its key and delegates. -/
def Handle.delete (st : Sys) :
    Handle → Option Seg → List Seg → Except Err Unit × Sys
  | .root f, key, path => storeDelete st f key path
  | .sub p k, none, path => Handle.delete st p none (k :: path)
  | .sub p k, some key, _ => Handle.delete st p none (k :: [key])

/-- `append`: root executes, sub-store prefixes its key and delegates. -/
def Handle.append (st : Sys) :
    Handle → JValue → List Seg → Except Err Unit × Sys
  | .root f, v, path => storeAppend st f v path
  | .sub p k, v, path => Handle.append st p v (k :: path)

/-- `contains`: root executes, sub-store prefixes its key and delegates. -/
def Handle.contains (st : Sys) : Handle → JValue → List Seg → Except Err Bool
  | .root f, v, path => storeContains st f v path
  | .sub p k, v, path => Handle.contains st p v (k :: path)

/-- The `_baseStructure` of each kind: `{}` for dict stores, `[]` for
list stores. -/
def baseOf : StoreKind → JValue
  | .dict => .obj []
  | .list => .arr []

/-- `SubStore.__init__` / `ListSubStore.__init__` under parent `h` with
key `k`, followed by the caller's `self._subs[path[0]] = ...` assignment:
if the parent does not `contain` the key, `parent.set` inserts the
default structure (persisting it); then the new handle is recorded.
An exception in `__init__` leaves the handle unrecorded. -/
def createSub (st : Sys) (h : Handle) (k : Seg) (kind : StoreKind) :
    Except Err Unit × Sys :=
  match Handle.contains st h (.str k) [] with
  | .error e => (.error e, st)
  | .ok true => (.ok (), regSub st h.rootFile (h.segs ++ [k]) kind)
  | .ok false =>
      match Handle.set st h none (baseOf kind) [k] with
      | (.error e, st') => (.error e, st')
      | (.ok _, st') => (.ok (), regSub st' h.rootFile (h.segs ++ [k]) kind)

/-- `StoreSkelleton.getStore`: resolve (creating dict sub-stores on the
way) the handle at `path` below `h`.  An empty path evaluates `path[0]`
on an empty list — IndexError. -/
def skelGetStore : Sys → Handle → List Seg → Except Err Handle × Sys
  | st, _, [] => (.error .indexError, st)
  | st, h, k :: rest =>
      match (if subRegistered st h.rootFile (h.segs ++ [k]) then (.ok (), st)
             else createSub st h k .dict) with
      | (.error e, st') => (.error e, st')
      | (.ok _, st') =>
          match rest with
          | [] => (.ok (.sub h k), st')
          | _ => skelGetStore st' (.sub h k) rest

/-- `StoreSkelleton.getListStore`: like `getStore`, but a missing final
segment is created as a list sub-store (intermediate ones as dict). -/
def skelGetListStore : Sys → Handle → List Seg → Except Err Handle × Sys
  | st, _, [] => (.error .indexError, st)
  | st, h, k :: rest =>
      match (if subRegistered st h.rootFile (h.segs ++ [k]) then (.ok (), st)
             else createSub st h k (match rest with | [] => .list | _ => .dict)) with
      | (.error e, st') => (.error e, st')
      | (.ok _, st') =>
          match rest with
          | [] => (.ok (.sub h k), st')
          | _ => skelGetListStore st' (.sub h k) rest

/-- `Store.__init__` / `ListStore.__init__` (via `BaseStoreSkelleton`):
if the backing file exists its content is loaded as the document;
otherwise the document is the kind's `_baseStructure` and is written out
immediately.  The fresh instance is registered under its file name. -/
def createRoot (st : Sys) (f : String) (kind : StoreKind) : Sys :=
  match alookup st.files f with
  | some v => { st with stores := aset st.stores f ⟨kind, v, []⟩ }
  | none =>
      { stores := aset st.stores f ⟨kind, baseOf kind, []⟩,
        files := aset st.files f (baseOf kind) }

/-- `Stores.getStore(fileName, path)`: create the root `Store` if the
namespace is unknown, then return it (empty path) or resolve through
`StoreSkelleton.getStore`. -/
def storesGetStore (st : Sys) (f : String) (path : List Seg) :
    Except Err Handle × Sys :=
  let st₁ := if (alookup st.stores f).isSome then st else createRoot st f .dict
  if 0 < path.length then skelGetStore st₁ (.root f) path
  else (.ok (.root f), st₁)

/-- `Stores.getListStore(fileName, path)`: an unknown namespace is created
as a `ListStore` only when the path is empty, as a dict `Store` otherwise;
then return the root (empty path) or resolve via
`StoreSkelleton.getListStore`. -/
def storesGetListStore (st : Sys) (f : String) (path : List Seg) :
    Except Err Handle × Sys :=
  let st₁ := if (alookup st.stores f).isSome then st
             else createRoot st f (if 0 < path.length then .dict else .list)
  if 0 < path.length then skelGetListStore st₁ (.root f) path
  else (.ok (.root f), st₁)

/-! ## Basic lemmas about the association-list primitives -/

theorem alookup_aset {κ α : Type} [DecidableEq κ] (l : List (κ × α)) (k k' : κ) (v : α) :
    alookup (aset l k v) k' = if k = k' then some v else alookup l k' := by
  induction l with
  | nil => simp [aset, alookup]
  | cons kv rest ih =>
      obtain ⟨k₀, v₀⟩ := kv
      by_cases h₀ : k₀ = k
      · subst h₀
        simp only [aset, if_pos rfl, alookup]
        by_cases h' : k₀ = k' <;> simp [h', alookup]
      · simp only [aset, if_neg h₀, alookup, ih]
        by_cases h₁ : k₀ = k' <;> by_cases h₂ : k = k' <;> simp_all

theorem alookup_amod {κ α : Type} [DecidableEq κ] (l : List (κ × α)) (k k' : κ)
    (g : α → α) :
    alookup (amod l k g) k' = if k = k' then (alookup l k').map g else alookup l k' := by
  induction l with
  | nil => simp [amod, alookup]
  | cons kv rest ih =>
      obtain ⟨k₀, v₀⟩ := kv
      by_cases h₀ : k₀ = k
      · subst h₀
        simp only [amod, if_pos rfl, alookup]
        by_cases h' : k₀ = k' <;> simp [h', alookup]
      · simp only [amod, if_neg h₀, alookup, ih]
        by_cases h₁ : k₀ = k' <;> by_cases h₂ : k = k' <;> simp_all

theorem aset_absent {κ α : Type} [DecidableEq κ] (l : List (κ × α)) (k : κ) (v : α)
    (h : ∀ kv ∈ l, kv.1 ≠ k) : aset l k v = l ++ [(k, v)] := by
  induction l with
  | nil => simp [aset]
  | cons kv rest ih =>
      obtain ⟨k₀, v₀⟩ := kv
      have hk₀ : k₀ ≠ k := h (k₀, v₀) (by simp)
      simp only [aset, if_neg hk₀, List.cons_append, List.cons.injEq, true_and]
      exact ih (fun kv hkv => h kv (by simp [hkv]))

/-! ## Every handle operation executes at the owning root -/

theorem hget_exec (h : Handle) : ∀ (st : Sys) (path : List Seg),
    Handle.get st h none path = storeGetPath st h.rootFile (h.segs ++ path) := by
  induction h with
  | root f => intro st path; rfl
  | sub p k ih =>
      intro st path
      show Handle.get st p none (k :: path) = _
      rw [ih st (k :: path)]
      simp [Handle.rootFile, Handle.segs]

theorem hset_exec (h : Handle) : ∀ (st : Sys) (v : JValue) (path : List Seg),
    Handle.set st h none v path = storeSetPath st h.rootFile v (h.segs ++ path) := by
  induction h with
  | root f => intro st v path; rfl
  | sub p k ih =>
      intro st v path
      show Handle.set st p none v (k :: path) = _
      rw [ih st v (k :: path)]
      simp [Handle.rootFile, Handle.segs]

theorem hdel_exec (h : Handle) : ∀ (st : Sys) (path : List Seg),
    Handle.delete st h none path = storeDeletePath st h.rootFile (h.segs ++ path) := by
  induction h with
  | root f => intro st path; rfl
  | sub p k ih =>
      intro st path
      show Handle.delete st p none (k :: path) = _
      rw [ih st (k :: path)]
      simp [Handle.rootFile, Handle.segs]

theorem happ_exec (h : Handle) : ∀ (st : Sys) (v : JValue) (path : List Seg),
    Handle.append st h v path = storeAppend st h.rootFile v (h.segs ++ path) := by
  induction h with
  | root f => intro st v path; rfl
  | sub p k ih =>
      intro st v path
      show Handle.append st p v (k :: path) = _
      rw [ih st v (k :: path)]
      simp [Handle.rootFile, Handle.segs]

theorem hcon_exec (h : Handle) : ∀ (st : Sys) (v : JValue) (path : List Seg),
    Handle.contains st h v path = storeContains st h.rootFile v (h.segs ++ path) := by
  induction h with
  | root f => intro st v path; rfl
  | sub p k ih =>
      intro st v path
      show Handle.contains st p v (k :: path) = _
      rw [ih st v (k :: path)]
      simp [Handle.rootFile, Handle.segs]

/-- Every `set` call, whatever the `key`/`path` convenience form, is one
`storeSetPath` at the owning root on some path. -/
theorem hset_cases (st : Sys) (h : Handle) (key : Option Seg) (v : JValue)
    (path : List Seg) :
    ∃ q, Handle.set st h key v path = storeSetPath st h.rootFile v q := by
  cases h with
  | root f =>
      cases key with
      | none => exact ⟨path, rfl⟩
      | some k => exact ⟨[k], rfl⟩
  | sub p k =>
      cases key with
      | none => exact ⟨Handle.segs (Handle.sub p k) ++ path, hset_exec (Handle.sub p k) st v path⟩
      | some key =>
          refine ⟨Handle.segs p ++ (k :: [key]), ?_⟩
          show Handle.set st p none v (k :: [key]) = _
          rw [hset_exec p st v (k :: [key])]
          simp [Handle.rootFile]

/-- Every `delete` call is one `storeDeletePath` at the owning root. -/
theorem hdel_cases (st : Sys) (h : Handle) (key : Option Seg) (path : List Seg) :
    ∃ q, Handle.delete st h key path = storeDeletePath st h.rootFile q := by
  cases h with
  | root f =>
      cases key with
      | none => exact ⟨path, rfl⟩
      | some k => exact ⟨[k], rfl⟩
  | sub p k =>
      cases key with
      | none => exact ⟨Handle.segs (Handle.sub p k) ++ path, hdel_exec (Handle.sub p k) st path⟩
      | some key =>
          refine ⟨Handle.segs p ++ (k :: [key]), ?_⟩
          show Handle.delete st p none (k :: [key]) = _
          rw [hdel_exec p st (k :: [key])]
          simp [Handle.rootFile]

/-! ## Write-through and error-state lemmas for the root mutators -/

theorem docAt_storeWrite (st : Sys) (f : String) (v : JValue) (r : RootStore)
    (hr : alookup st.stores f = some r) : docAt (storeWrite st f v) f = some v := by
  simp [docAt, storeWrite, alookup_amod, hr]

theorem fileAt_storeWrite (st : Sys) (f : String) (v : JValue) :
    fileAt (storeWrite st f v) f = some v := by
  simp [fileAt, storeWrite, alookup_aset]

theorem storeSetPath_ok (st : Sys) (f : String) (v : JValue) (q : List Seg)
    (hok : (storeSetPath st f v q).1 = .ok ()) :
    ∃ d, docAt (storeSetPath st f v q).2 f = some d
       ∧ fileAt (storeSetPath st f v q).2 f = some d := by
  cases hr : alookup st.stores f with
  | none => simp [storeSetPath, hr] at hok
  | some r =>
      cases hs : setPath r.value q v with
      | error e => simp [storeSetPath, hr, hs] at hok
      | ok doc =>
          simp only [storeSetPath, hr, hs]
          exact ⟨doc, docAt_storeWrite st f doc r hr, fileAt_storeWrite st f doc⟩

theorem storeDeletePath_ok (st : Sys) (f : String) (q : List Seg)
    (hok : (storeDeletePath st f q).1 = .ok ()) :
    ∃ d, docAt (storeDeletePath st f q).2 f = some d
       ∧ fileAt (storeDeletePath st f q).2 f = some d := by
  cases hr : alookup st.stores f with
  | none => simp [storeDeletePath, hr] at hok
  | some r =>
      cases hs : delPath r.value q with
      | error e => simp [storeDeletePath, hr, hs] at hok
      | ok doc =>
          simp only [storeDeletePath, hr, hs]
          exact ⟨doc, docAt_storeWrite st f doc r hr, fileAt_storeWrite st f doc⟩

theorem storeAppend_ok (st : Sys) (f : String) (v : JValue) (q : List Seg)
    (hok : (storeAppend st f v q).1 = .ok ()) :
    ∃ d, docAt (storeAppend st f v q).2 f = some d
       ∧ fileAt (storeAppend st f v q).2 f = some d := by
  cases hr : alookup st.stores f with
  | none => simp [storeAppend, hr] at hok
  | some r =>
      cases hs : appendPath r.value q v with
      | error e => simp [storeAppend, hr, hs] at hok
      | ok doc =>
          simp only [storeAppend, hr, hs]
          exact ⟨doc, docAt_storeWrite st f doc r hr, fileAt_storeWrite st f doc⟩

theorem storeSetPath_error (st : Sys) (f : String) (v : JValue) (q : List Seg)
    (e : Err) (herr : (storeSetPath st f v q).1 = .error e) :
    (storeSetPath st f v q).2 = st := by
  cases hr : alookup st.stores f with
  | none => simp [storeSetPath, hr]
  | some r =>
      cases hs : setPath r.value q v with
      | error e' => simp [storeSetPath, hr, hs]
      | ok doc => simp [storeSetPath, hr, hs] at herr

theorem storeDeletePath_error (st : Sys) (f : String) (q : List Seg)
    (e : Err) (herr : (storeDeletePath st f q).1 = .error e) :
    (storeDeletePath st f q).2 = st := by
  cases hr : alookup st.stores f with
  | none => simp [storeDeletePath, hr]
  | some r =>
      cases hs : delPath r.value q with
      | error e' => simp [storeDeletePath, hr, hs]
      | ok doc => simp [storeDeletePath, hr, hs] at herr

theorem storeAppend_error (st : Sys) (f : String) (v : JValue) (q : List Seg)
    (e : Err) (herr : (storeAppend st f v q).1 = .error e) :
    (storeAppend st f v q).2 = st := by
  cases hr : alookup st.stores f with
  | none => simp [storeAppend, hr]
  | some r =>
      cases hs : appendPath r.value q v with
      | error e' => simp [storeAppend, hr, hs]
      | ok doc => simp [storeAppend, hr, hs] at herr

/-! ## Claim theorems (first batch) -/

/-- C1.  Path delegation equivalence: every operation of a derived handle
with parent `p` and key `k` returns the same result and has the same
effect as the parent's operation with `k` prefixed to the path, and the
whole chain executes as one document access of the owning root store —
a derived handle holds no data and performs no persistence itself. -/
theorem path_delegation_equivalence (st : Sys) (p : Handle) (k : Seg)
    (v : JValue) (path : List Seg) :
    Handle.get st (Handle.sub p k) none path = Handle.get st p none (k :: path)
  ∧ Handle.set st (Handle.sub p k) none v path = Handle.set st p none v (k :: path)
  ∧ Handle.delete st (Handle.sub p k) none path = Handle.delete st p none (k :: path)
  ∧ Handle.append st (Handle.sub p k) v path = Handle.append st p v (k :: path)
  ∧ Handle.contains st (Handle.sub p k) v path = Handle.contains st p v (k :: path)
  ∧ Handle.get st (Handle.sub p k) none path
      = storeGetPath st (Handle.rootFile (Handle.sub p k))
          (Handle.segs (Handle.sub p k) ++ path)
  ∧ Handle.set st (Handle.sub p k) none v path
      = storeSetPath st (Handle.rootFile (Handle.sub p k)) v
          (Handle.segs (Handle.sub p k) ++ path)
  ∧ Handle.delete st (Handle.sub p k) none path
      = storeDeletePath st (Handle.rootFile (Handle.sub p k))
          (Handle.segs (Handle.sub p k) ++ path)
  ∧ Handle.append st (Handle.sub p k) v path
      = storeAppend st (Handle.rootFile (Handle.sub p k)) v
          (Handle.segs (Handle.sub p k) ++ path)
  ∧ Handle.contains st (Handle.sub p k) v path
      = storeContains st (Handle.rootFile (Handle.sub p k)) v
          (Handle.segs (Handle.sub p k) ++ path) :=
  ⟨rfl, rfl, rfl, rfl, rfl,
   hget_exec (Handle.sub p k) st path, hset_exec (Handle.sub p k) st v path,
   hdel_exec (Handle.sub p k) st path, happ_exec (Handle.sub p k) st v path,
   hcon_exec (Handle.sub p k) st v path⟩

/-- C2.  Write-through consistency: after every successful `set`,
`delete` or `append` through any handle, the backing file of the owning
root holds exactly the in-memory document. -/
theorem write_through_consistency (st : Sys) (h : Handle) (key : Option Seg)
    (v : JValue) (path : List Seg) :
    ((Handle.set st h key v path).1 = .ok () →
       ∃ d, docAt (Handle.set st h key v path).2 h.rootFile = some d
          ∧ fileAt (Handle.set st h key v path).2 h.rootFile = some d)
  ∧ ((Handle.delete st h key path).1 = .ok () →
       ∃ d, docAt (Handle.delete st h key path).2 h.rootFile = some d
          ∧ fileAt (Handle.delete st h key path).2 h.rootFile = some d)
  ∧ ((Handle.append st h v path).1 = .ok () →
       ∃ d, docAt (Handle.append st h v path).2 h.rootFile = some d
          ∧ fileAt (Handle.append st h v path).2 h.rootFile = some d) := by
  refine ⟨?_, ?_, ?_⟩
  · intro hok
    obtain ⟨q, hq⟩ := hset_cases st h key v path
    rw [hq] at hok ⊢
    exact storeSetPath_ok st h.rootFile v q hok
  · intro hok
    obtain ⟨q, hq⟩ := hdel_cases st h key path
    rw [hq] at hok ⊢
    exact storeDeletePath_ok st h.rootFile q hok
  · intro hok
    rw [happ_exec h st v path] at hok ⊢
    exact storeAppend_ok st h.rootFile v (h.segs ++ path) hok

/-- Witness for C2: a successful `set` on a concrete store leaves the
file equal to the document. -/
theorem write_through_consistency_witness :
    (Handle.set (Sys.mk [("f", RootStore.mk .dict (.obj []) [])] [])
        (Handle.root "f") none (.num 1) ["a"]).1 = .ok ()
  ∧ ∃ d, docAt (Handle.set (Sys.mk [("f", RootStore.mk .dict (.obj []) [])] [])
            (Handle.root "f") none (.num 1) ["a"]).2
            (Handle.rootFile (Handle.root "f")) = some d
       ∧ fileAt (Handle.set (Sys.mk [("f", RootStore.mk .dict (.obj []) [])] [])
            (Handle.root "f") none (.num 1) ["a"]).2
            (Handle.rootFile (Handle.root "f")) = some d :=
  ⟨rfl, (write_through_consistency (Sys.mk [("f", RootStore.mk .dict (.obj []) [])] [])
      (Handle.root "f") none (.num 1) ["a"]).1 rfl⟩

/-- C6.  Error atomicity: a `set`, `delete` or `append` whose in-memory
mutation step fails raises without writing — the process state (document
and file system) is exactly what it was. -/
theorem mutation_error_atomicity (st : Sys) (h : Handle) (key : Option Seg)
    (v : JValue) (path : List Seg) (e : Err) :
    ((Handle.set st h key v path).1 = .error e → (Handle.set st h key v path).2 = st)
  ∧ ((Handle.delete st h key path).1 = .error e → (Handle.delete st h key path).2 = st)
  ∧ ((Handle.append st h v path).1 = .error e → (Handle.append st h v path).2 = st) := by
  refine ⟨?_, ?_, ?_⟩
  · intro herr
    obtain ⟨q, hq⟩ := hset_cases st h key v path
    rw [hq] at herr ⊢
    exact storeSetPath_error st h.rootFile v q e herr
  · intro herr
    obtain ⟨q, hq⟩ := hdel_cases st h key path
    rw [hq] at herr ⊢
    exact storeDeletePath_error st h.rootFile q e herr
  · intro herr
    rw [happ_exec h st v path] at herr ⊢
    exact storeAppend_error st h.rootFile v (h.segs ++ path) e herr

/-- Witness for C6: a `set` through a missing intermediate key fails with
KeyError and leaves the state untouched. -/
theorem mutation_error_atomicity_witness :
    (Handle.set (Sys.mk [("f", RootStore.mk .dict (.obj []) [])] [])
        (Handle.root "f") none (.num 1) ["x", "y"]).1 = .error .keyError
  ∧ (Handle.set (Sys.mk [("f", RootStore.mk .dict (.obj []) [])] [])
        (Handle.root "f") none (.num 1) ["x", "y"]).2
      = Sys.mk [("f", RootStore.mk .dict (.obj []) [])] [] :=
  ⟨rfl, (mutation_error_atomicity (Sys.mk [("f", RootStore.mk .dict (.obj []) [])] [])
      (Handle.root "f") none (.num 1) ["x", "y"] .keyError).1 rfl⟩

/-- C5.  Root-handle construction: with an existing backing file the
document is the file's decoded content and the file system is untouched;
without one, the document is the kind's empty base structure (`{}` for
`Store`, `[]` for `ListStore`) and is written out immediately. -/
theorem root_handle_construction (st : Sys) (f : String) (kind : StoreKind) :
    (∀ v, fileAt st f = some v →
       docAt (createRoot st f kind) f = some v
       ∧ (createRoot st f kind).files = st.files)
  ∧ (fileAt st f = none →
       docAt (createRoot st f kind) f = some (baseOf kind)
       ∧ fileAt (createRoot st f kind) f = some (baseOf kind))
  ∧ baseOf .dict = .obj [] ∧ baseOf .list = .arr [] := by
  refine ⟨?_, ?_, rfl, rfl⟩
  · intro v hv
    rw [fileAt] at hv
    constructor
    · simp [docAt, createRoot, hv, alookup_aset]
    · simp [createRoot, hv]
  · intro hv
    rw [fileAt] at hv
    constructor
    · simp [docAt, createRoot, hv, alookup_aset]
    · simp [fileAt, createRoot, hv, alookup_aset]

/-- Witness for C5: both construction branches at concrete states. -/
theorem root_handle_construction_witness :
    (fileAt (Sys.mk [] [("f", .num 5)]) "f" = some (.num 5)
     ∧ docAt (createRoot (Sys.mk [] [("f", .num 5)]) "f" .dict) "f" = some (.num 5)
     ∧ (createRoot (Sys.mk [] [("f", .num 5)]) "f" .dict).files
         = (Sys.mk ([] : List (String × RootStore)) [("f", .num 5)]).files)
  ∧ (fileAt (Sys.mk [] []) "g" = none
     ∧ docAt (createRoot (Sys.mk [] []) "g" .list) "g" = some (baseOf .list)
     ∧ fileAt (createRoot (Sys.mk [] []) "g" .list) "g" = some (baseOf .list)) :=
  ⟨⟨rfl, (root_handle_construction (Sys.mk [] [("f", .num 5)]) "f" .dict).1 (.num 5) rfl⟩,
   ⟨rfl, (root_handle_construction (Sys.mk [] []) "g" .list).2.1 rfl⟩⟩

/-- C9.  The single-key convenience form of `get` on a root handle never
returns a value: the recursive call's result is discarded and the unbound
local `ret` raises; the path form returns the value. -/
theorem single_key_get_never_returns (st : Sys) (f : String) (k : Seg)
    (path : List Seg) (r : RootStore) (v : JValue) :
    (∃ e, storeGet st f (some k) path = .error e)
  ∧ Handle.get st (Handle.root f) (some k) path = storeGet st f (some k) path
  ∧ (alookup st.stores f = some r → walk r.value [k] = .ok v →
       storeGet st f none [k] = .ok v
       ∧ storeGet st f (some k) path = .error .unboundLocal) := by
  refine ⟨?_, rfl, ?_⟩
  · cases hg : storeGetPath st f [k] with
    | ok w => exact ⟨.unboundLocal, by simp [storeGet, hg]⟩
    | error e => exact ⟨e, by simp [storeGet, hg]⟩
  · intro hr hw
    have hgp : storeGetPath st f [k] = .ok v := by simp [storeGetPath, hr, hw]
    exact ⟨hgp, by simp [storeGet, hgp]⟩

/-- Witness for C9: a present key, fetched fine by path, still errors in
the single-key form. -/
theorem single_key_get_never_returns_witness :
    alookup (Sys.mk [("f", RootStore.mk .dict (.obj [("a", .num 7)]) [])] []).stores "f"
      = some (RootStore.mk .dict (.obj [("a", .num 7)]) [])
  ∧ walk (RootStore.mk .dict (.obj [("a", .num 7)]) []).value ["a"] = .ok (.num 7)
  ∧ storeGet (Sys.mk [("f", RootStore.mk .dict (.obj [("a", .num 7)]) [])] []) "f" none ["a"]
      = .ok (.num 7)
  ∧ storeGet (Sys.mk [("f", RootStore.mk .dict (.obj [("a", .num 7)]) [])] []) "f"
      (some "a") [] = .error .unboundLocal :=
  ⟨rfl, rfl,
   ((single_key_get_never_returns
       (Sys.mk [("f", RootStore.mk .dict (.obj [("a", .num 7)]) [])] []) "f" "a" []
       (RootStore.mk .dict (.obj [("a", .num 7)]) []) (.num 7)).2.2 rfl rfl).1,
   ((single_key_get_never_returns
       (Sys.mk [("f", RootStore.mk .dict (.obj [("a", .num 7)]) [])] []) "f" "a" []
       (RootStore.mk .dict (.obj [("a", .num 7)]) []) (.num 7)).2.2 rfl rfl).2⟩

/-- C10.  The handle-level `getStore`/`getListStore` with an empty path
fail at `path[0]` with an IndexError and change nothing; only the
registry-level entry points accept an empty path and return the root
handle. -/
theorem empty_path_resolution (st : Sys) (h : Handle) (f : String) :
    skelGetStore st h [] = (.error .indexError, st)
  ∧ skelGetListStore st h [] = (.error .indexError, st)
  ∧ (storesGetStore st f []).1 = .ok (.root f)
  ∧ (storesGetListStore st f []).1 = .ok (.root f) :=
  ⟨rfl, rfl, rfl, rfl⟩

/-- Counterexample to C7 as stated: on a derived handle whose key is
present, `delete` with an empty path does NOT fail with an invalid-path
error — it delegates to the parent as `delete(path=[key])`, succeeds, and
removes the handle's own entry from the document. -/
theorem empty_path_delete_cex :
    (Handle.delete
        (Sys.mk [("f", RootStore.mk .dict (.obj [("a", .obj [])]) [(["a"], .dict)])]
                [("f", .obj [("a", .obj [])])])
        (Handle.sub (Handle.root "f") "a") none []).1 = .ok ()
  ∧ docAt (Handle.delete
        (Sys.mk [("f", RootStore.mk .dict (.obj [("a", .obj [])]) [(["a"], .dict)])]
                [("f", .obj [("a", .obj [])])])
        (Handle.sub (Handle.root "f") "a") none []).2 "f" = some (.obj []) :=
  ⟨rfl, rfl⟩

/-- C7 amended.  An empty path where a final segment is required fails
only on a ROOT handle: `set`/`delete` with an empty path on a root raise
IndexError (`path[-1]` on `[]`), leaving document and file unchanged.
On a derived handle the empty-path call delegates to the parent with the
handle's own key as the path, so it operates on the handle's own entry
instead of failing. -/
theorem empty_path_delete_set_amended (st : Sys) (f : String) (r : RootStore)
    (p : Handle) (k : Seg) (v : JValue) :
    (alookup st.stores f = some r →
       storeDelete st f none [] = (.error .indexError, st)
       ∧ storeSet st f none v [] = (.error .indexError, st))
  ∧ Handle.delete st (Handle.sub p k) none [] = Handle.delete st p none [k]
  ∧ Handle.set st (Handle.sub p k) none v [] = Handle.set st p none v [k] := by
  refine ⟨?_, rfl, rfl⟩
  intro hr
  constructor
  · show storeDeletePath st f [] = _
    simp [storeDeletePath, hr, delPath]
  · show storeSetPath st f v [] = _
    simp [storeSetPath, hr, setPath]

/-- Witness for the amended C7 at a concrete root store. -/
theorem empty_path_delete_set_amended_witness :
    alookup (Sys.mk [("f", RootStore.mk .dict (.obj []) [])] []).stores "f"
      = some (RootStore.mk .dict (.obj []) [])
  ∧ storeDelete (Sys.mk [("f", RootStore.mk .dict (.obj []) [])] []) "f" none []
      = (.error .indexError, Sys.mk [("f", RootStore.mk .dict (.obj []) [])] [])
  ∧ storeSet (Sys.mk [("f", RootStore.mk .dict (.obj []) [])] []) "f" none (.num 3) []
      = (.error .indexError, Sys.mk [("f", RootStore.mk .dict (.obj []) [])] []) :=
  ⟨rfl,
   ((empty_path_delete_set_amended (Sys.mk [("f", RootStore.mk .dict (.obj []) [])] [])
       "f" (RootStore.mk .dict (.obj []) []) (Handle.root "f") "k" (.num 3)).1 rfl).1,
   ((empty_path_delete_set_amended (Sys.mk [("f", RootStore.mk .dict (.obj []) [])] [])
       "f" (RootStore.mk .dict (.obj []) []) (Handle.root "f") "k" (.num 3)).1 rfl).2⟩

/-- C8.  Kind is fixed at first resolution: `getListStore` at a namespace
or path where a mapping-kind handle is already registered silently
returns that existing handle, raising nothing and changing nothing
(registry, documents and files all untouched). -/
theorem kind_fixed_at_first_resolution (st : Sys) (f : String) (r : RootStore)
    (h : Handle) (k : Seg) :
    (alookup st.stores f = some r → r.kind = .dict →
       storesGetListStore st f [] = (.ok (.root f), st))
  ∧ (alookup (subsOf st h.rootFile) (h.segs ++ [k]) = some .dict →
       skelGetListStore st h [k] = (.ok (.sub h k), st)) := by
  constructor
  · intro hr _
    simp [storesGetListStore, hr]
  · intro hk
    have hreg : subRegistered st h.rootFile (h.segs ++ [k]) = true := by
      simp [subRegistered, hk]
    simp [skelGetListStore, hreg]

/-- Witness for C8: both the registry level and the handle level at a
concrete state with a dict handle already present. -/
theorem kind_fixed_at_first_resolution_witness :
    (alookup (Sys.mk [("f", RootStore.mk .dict (.obj [("a", .obj [])]) [(["a"], .dict)])]
                [("f", .obj [("a", .obj [])])]).stores "f"
       = some (RootStore.mk .dict (.obj [("a", .obj [])]) [(["a"], .dict)])
     ∧ storesGetListStore
         (Sys.mk [("f", RootStore.mk .dict (.obj [("a", .obj [])]) [(["a"], .dict)])]
                [("f", .obj [("a", .obj [])])]) "f" []
       = (.ok (.root "f"),
          Sys.mk [("f", RootStore.mk .dict (.obj [("a", .obj [])]) [(["a"], .dict)])]
                [("f", .obj [("a", .obj [])])]))
  ∧ skelGetListStore
      (Sys.mk [("f", RootStore.mk .dict (.obj [("a", .obj [])]) [(["a"], .dict)])]
              [("f", .obj [("a", .obj [])])]) (Handle.root "f") ["a"]
    = (.ok (.sub (Handle.root "f") "a"),
       Sys.mk [("f", RootStore.mk .dict (.obj [("a", .obj [])]) [(["a"], .dict)])]
              [("f", .obj [("a", .obj [])])]) :=
  ⟨⟨rfl, (kind_fixed_at_first_resolution
       (Sys.mk [("f", RootStore.mk .dict (.obj [("a", .obj [])]) [(["a"], .dict)])]
               [("f", .obj [("a", .obj [])])]) "f"
       (RootStore.mk .dict (.obj [("a", .obj [])]) [(["a"], .dict)])
       (Handle.root "f") "a").1 rfl rfl⟩,
   (kind_fixed_at_first_resolution
       (Sys.mk [("f", RootStore.mk .dict (.obj [("a", .obj [])]) [(["a"], .dict)])]
               [("f", .obj [("a", .obj [])])]) "f"
       (RootStore.mk .dict (.obj [("a", .obj [])]) [(["a"], .dict)])
       (Handle.root "f") "a").2 rfl⟩

/-! ## Registry preservation lemmas (for memoization) -/

theorem subsOf_storeWrite (st : Sys) (f g : String) (v : JValue) :
    subsOf (storeWrite st f v) g = subsOf st g := by
  unfold subsOf storeWrite
  rw [alookup_amod]
  by_cases hfg : f = g
  · subst hfg
    simp only [if_pos rfl]
    cases alookup st.stores f <;> simp
  · simp [if_neg hfg]

theorem dom_storeWrite (st : Sys) (f g : String) (v : JValue) :
    (alookup (storeWrite st f v).stores g).isSome = (alookup st.stores g).isSome := by
  show (alookup (amod st.stores f _) g).isSome = _
  rw [alookup_amod]
  by_cases hfg : f = g
  · subst hfg
    simp only [if_pos rfl]
    cases alookup st.stores f <;> simp
  · simp [if_neg hfg]

theorem dom_regSub (st : Sys) (f g : String) (p : List Seg) (kind : StoreKind) :
    (alookup (regSub st f p kind).stores g).isSome = (alookup st.stores g).isSome := by
  show (alookup (amod st.stores f _) g).isSome = _
  rw [alookup_amod]
  by_cases hfg : f = g
  · subst hfg
    simp only [if_pos rfl]
    cases alookup st.stores f <;> simp
  · simp [if_neg hfg]

theorem subRegistered_regSub (st : Sys) (f g : String) (p q : List Seg)
    (kind : StoreKind) (h : subRegistered st g q = true) :
    subRegistered (regSub st f p kind) g q = true := by
  unfold subRegistered subsOf at h ⊢
  show (alookup (match alookup (amod st.stores f _) g with
        | some r => r.subs | none => []) q).isSome = true
  rw [alookup_amod]
  by_cases hfg : f = g
  · subst hfg
    simp only [if_pos rfl]
    cases hr : alookup st.stores f with
    | none => rw [hr] at h; simp [alookup] at h
    | some r =>
        have h' : (alookup r.subs q).isSome = true := by rw [hr] at h; exact h
        show (alookup (aset r.subs p kind) q).isSome = true
        rw [alookup_aset]
        by_cases hpq : p = q <;> simp [hpq, h']
  · simp only [if_neg hfg]
    exact h

theorem subRegistered_regSub_self (st : Sys) (f : String) (p : List Seg)
    (kind : StoreKind) (hdom : (alookup st.stores f).isSome = true) :
    subRegistered (regSub st f p kind) f p = true := by
  unfold subRegistered subsOf
  show (alookup (match alookup (amod st.stores f _) f with
        | some r => r.subs | none => []) p).isSome = true
  rw [alookup_amod, if_pos rfl]
  cases hr : alookup st.stores f with
  | none => rw [hr] at hdom; simp at hdom
  | some r => simp [alookup_aset]

theorem subsOf_storeSetPath (st : Sys) (f g : String) (v : JValue) (q : List Seg) :
    subsOf (storeSetPath st f v q).2 g = subsOf st g := by
  cases hr : alookup st.stores f with
  | none => simp [storeSetPath, hr]
  | some r =>
      cases hs : setPath r.value q v with
      | error e => simp [storeSetPath, hr, hs]
      | ok doc => simp [storeSetPath, hr, hs, subsOf_storeWrite]

theorem dom_storeSetPath (st : Sys) (f g : String) (v : JValue) (q : List Seg) :
    (alookup (storeSetPath st f v q).2.stores g).isSome
      = (alookup st.stores g).isSome := by
  cases hr : alookup st.stores f with
  | none => simp [storeSetPath, hr]
  | some r =>
      cases hs : setPath r.value q v with
      | error e => simp [storeSetPath, hr, hs]
      | ok doc => simp [storeSetPath, hr, hs, dom_storeWrite]

theorem storeSetPath_ok_dom (st : Sys) (f : String) (v : JValue) (q : List Seg)
    (hok : (storeSetPath st f v q).1 = .ok ()) :
    (alookup (storeSetPath st f v q).2.stores f).isSome = true := by
  obtain ⟨d, hd, _⟩ := storeSetPath_ok st f v q hok
  unfold docAt at hd
  cases hl : alookup (storeSetPath st f v q).2.stores f with
  | none => rw [hl] at hd; simp at hd
  | some r => simp

theorem storeContains_ok_dom (st : Sys) (f : String) (v : JValue) (q : List Seg)
    (b : Bool) (hok : storeContains st f v q = .ok b) :
    (alookup st.stores f).isSome = true := by
  cases hr : alookup st.stores f with
  | none => rw [storeContains, hr] at hok; exact absurd hok (by simp)
  | some r => simp

theorem subRegistered_createSub (st : Sys) (h : Handle) (k : Seg)
    (kind : StoreKind) (g : String) (q : List Seg)
    (hreg : subRegistered st g q = true) :
    subRegistered (createSub st h k kind).2 g q = true := by
  unfold createSub
  cases hc : Handle.contains st h (.str k) [] with
  | error e => exact hreg
  | ok b =>
      cases b with
      | true => exact subRegistered_regSub st h.rootFile g (h.segs ++ [k]) q kind hreg
      | false =>
          rw [hset_exec h st (baseOf kind) [k]]
          cases hs : storeSetPath st h.rootFile (baseOf kind) (h.segs ++ [k]) with
          | mk res st' =>
              cases res with
              | error e => simp only []
                           have := subsOf_storeSetPath st h.rootFile g (baseOf kind) (h.segs ++ [k])
                           rw [hs] at this
                           unfold subRegistered at hreg ⊢
                           rw [this]
                           exact hreg
              | ok u =>
                  simp only []
                  apply subRegistered_regSub
                  have := subsOf_storeSetPath st h.rootFile g (baseOf kind) (h.segs ++ [k])
                  rw [hs] at this
                  unfold subRegistered at hreg ⊢
                  rw [this]
                  exact hreg

theorem dom_createSub (st : Sys) (h : Handle) (k : Seg) (kind : StoreKind)
    (g : String) :
    (alookup (createSub st h k kind).2.stores g).isSome
      = (alookup st.stores g).isSome := by
  unfold createSub
  cases hc : Handle.contains st h (.str k) [] with
  | error e => rfl
  | ok b =>
      cases b with
      | true => exact dom_regSub st h.rootFile g (h.segs ++ [k]) kind
      | false =>
          rw [hset_exec h st (baseOf kind) [k]]
          cases hs : storeSetPath st h.rootFile (baseOf kind) (h.segs ++ [k]) with
          | mk res st' =>
              have hd := dom_storeSetPath st h.rootFile g (baseOf kind) (h.segs ++ [k])
              rw [hs] at hd
              cases res with
              | error e => exact hd
              | ok u => rw [dom_regSub]; exact hd

theorem createSub_ok_registered (st : Sys) (h : Handle) (k : Seg)
    (kind : StoreKind) (hok : (createSub st h k kind).1 = .ok ()) :
    subRegistered (createSub st h k kind).2 h.rootFile (h.segs ++ [k]) = true := by
  unfold createSub at hok ⊢
  cases hc : Handle.contains st h (.str k) [] with
  | error e => rw [hc] at hok; exact absurd hok (by simp)
  | ok b =>
      cases b with
      | true =>
          apply subRegistered_regSub_self
          apply storeContains_ok_dom st h.rootFile (.str k) (h.segs ++ []) true
          rw [← hcon_exec h st (.str k) []]
          exact hc
      | false =>
          rw [hset_exec h st (baseOf kind) [k]]
          cases hs : storeSetPath st h.rootFile (baseOf kind) (h.segs ++ [k]) with
          | mk res st' =>
              cases res with
              | error e =>
                  rw [hc, hset_exec h st (baseOf kind) [k], hs] at hok
                  exact absurd hok (by simp)
              | ok u =>
                  simp only []
                  apply subRegistered_regSub_self
                  have hd := storeSetPath_ok_dom st h.rootFile (baseOf kind)
                    (h.segs ++ [k]) (by rw [hs])
                  rw [hs] at hd
                  exact hd

/-- Reduction: the first segment is already registered and is the last —
return the memoized sub-handle, no state change. -/
theorem skel_hit_nil (st : Sys) (h : Handle) (k : Seg)
    (hr : subRegistered st h.rootFile (h.segs ++ [k]) = true) :
    skelGetStore st h [k] = (.ok (.sub h k), st) := by
  simp [skelGetStore, hr]

/-- Reduction: the first segment is registered and more segments follow —
recurse through the memoized sub-handle on the unchanged state. -/
theorem skel_hit_cons (st : Sys) (h : Handle) (k r₂ : Seg) (rs : List Seg)
    (hr : subRegistered st h.rootFile (h.segs ++ [k]) = true) :
    skelGetStore st h (k :: r₂ :: rs) = skelGetStore st (Handle.sub h k) (r₂ :: rs) := by
  simp [skelGetStore, hr]

/-- Reduction: the first segment is unregistered and its construction
fails — the error propagates with the constructor's state. -/
theorem skel_miss_err (st : Sys) (h : Handle) (k : Seg) (rest : List Seg)
    (e : Err) (st' : Sys)
    (hr : ¬ subRegistered st h.rootFile (h.segs ++ [k]) = true)
    (hcs : createSub st h k .dict = (.error e, st')) :
    skelGetStore st h (k :: rest) = (.error e, st') := by
  cases rest with
  | nil => simp [skelGetStore, hr, hcs]
  | cons r₂ rs => simp [skelGetStore, hr, hcs]

/-- Reduction: the first segment is unregistered, is created, and is the
last — return the new sub-handle with the constructor's state. -/
theorem skel_miss_ok_nil (st : Sys) (h : Handle) (k : Seg) (u : Unit) (st' : Sys)
    (hr : ¬ subRegistered st h.rootFile (h.segs ++ [k]) = true)
    (hcs : createSub st h k .dict = (.ok u, st')) :
    skelGetStore st h [k] = (.ok (.sub h k), st') := by
  simp [skelGetStore, hr, hcs]

/-- Reduction: the first segment is unregistered, is created, and more
segments follow — recurse from the constructor's state. -/
theorem skel_miss_ok_cons (st : Sys) (h : Handle) (k r₂ : Seg) (rs : List Seg)
    (u : Unit) (st' : Sys)
    (hr : ¬ subRegistered st h.rootFile (h.segs ++ [k]) = true)
    (hcs : createSub st h k .dict = (.ok u, st')) :
    skelGetStore st h (k :: r₂ :: rs) = skelGetStore st' (Handle.sub h k) (r₂ :: rs) := by
  simp [skelGetStore, hr, hcs]

theorem skel_preserve_reg (p : List Seg) :
    ∀ (st : Sys) (h : Handle) (g : String) (q : List Seg),
      subRegistered st g q = true →
      subRegistered (skelGetStore st h p).2 g q = true := by
  induction p with
  | nil => intro st h g q hreg; exact hreg
  | cons k rest ih =>
      intro st h g q hreg
      by_cases hr : subRegistered st h.rootFile (h.segs ++ [k]) = true
      · cases rest with
        | nil => rw [skel_hit_nil st h k hr]; exact hreg
        | cons r₂ rs =>
            rw [skel_hit_cons st h k r₂ rs hr]
            exact ih st (Handle.sub h k) g q hreg
      · have hpres := subRegistered_createSub st h k .dict g q hreg
        cases hcs : createSub st h k .dict with
        | mk res st' =>
            rw [hcs] at hpres
            cases res with
            | error e => rw [skel_miss_err st h k rest e st' hr hcs]; exact hpres
            | ok u =>
                cases rest with
                | nil => rw [skel_miss_ok_nil st h k u st' hr hcs]; exact hpres
                | cons r₂ rs =>
                    rw [skel_miss_ok_cons st h k r₂ rs u st' hr hcs]
                    exact ih st' (Handle.sub h k) g q hpres

theorem skel_dom (p : List Seg) :
    ∀ (st : Sys) (h : Handle) (g : String),
      (alookup st.stores g).isSome = true →
      (alookup (skelGetStore st h p).2.stores g).isSome = true := by
  induction p with
  | nil => intro st h g hdom; exact hdom
  | cons k rest ih =>
      intro st h g hdom
      by_cases hr : subRegistered st h.rootFile (h.segs ++ [k]) = true
      · cases rest with
        | nil => rw [skel_hit_nil st h k hr]; exact hdom
        | cons r₂ rs =>
            rw [skel_hit_cons st h k r₂ rs hr]
            exact ih st (Handle.sub h k) g hdom
      · have hpres : (alookup (createSub st h k .dict).2.stores g).isSome = true := by
          rw [dom_createSub]; exact hdom
        cases hcs : createSub st h k .dict with
        | mk res st' =>
            rw [hcs] at hpres
            cases res with
            | error e => rw [skel_miss_err st h k rest e st' hr hcs]; exact hpres
            | ok u =>
                cases rest with
                | nil => rw [skel_miss_ok_nil st h k u st' hr hcs]; exact hpres
                | cons r₂ rs =>
                    rw [skel_miss_ok_cons st h k r₂ rs u st' hr hcs]
                    exact ih st' (Handle.sub h k) g hpres

theorem skel_idem (p : List Seg) :
    ∀ (st : Sys) (h h' : Handle) (st₁ : Sys),
      skelGetStore st h p = (.ok h', st₁) →
      skelGetStore st₁ h p = (.ok h', st₁) := by
  induction p with
  | nil =>
      intro st h h' st₁ hyp
      exact absurd hyp (by simp [skelGetStore])
  | cons k rest ih =>
      intro st h h' st₁ hyp
      by_cases hr : subRegistered st h.rootFile (h.segs ++ [k]) = true
      · cases rest with
        | nil =>
            rw [skel_hit_nil st h k hr] at hyp
            injection hyp with he hs
            injection he with he'
            subst hs; subst he'
            exact skel_hit_nil st h k hr
        | cons r₂ rs =>
            rw [skel_hit_cons st h k r₂ rs hr] at hyp
            have hreg₁ := skel_preserve_reg (r₂ :: rs) st (Handle.sub h k)
              h.rootFile (h.segs ++ [k]) hr
            rw [hyp] at hreg₁
            rw [skel_hit_cons st₁ h k r₂ rs hreg₁]
            exact ih st (Handle.sub h k) h' st₁ hyp
      · cases hcs : createSub st h k .dict with
        | mk res st' =>
            cases res with
            | error e =>
                rw [skel_miss_err st h k rest e st' hr hcs] at hyp
                injection hyp with he hs
                exact absurd he (by simp)
            | ok u =>
                have hokr : (createSub st h k .dict).1 = .ok () := by rw [hcs]
                have hregS := createSub_ok_registered st h k .dict hokr
                rw [hcs] at hregS
                cases rest with
                | nil =>
                    rw [skel_miss_ok_nil st h k u st' hr hcs] at hyp
                    injection hyp with he hs
                    injection he with he'
                    subst hs; subst he'
                    exact skel_hit_nil st' h k hregS
                | cons r₂ rs =>
                    rw [skel_miss_ok_cons st h k r₂ rs u st' hr hcs] at hyp
                    have hreg₁ := skel_preserve_reg (r₂ :: rs) st' (Handle.sub h k)
                      h.rootFile (h.segs ++ [k]) hregS
                    rw [hyp] at hreg₁
                    rw [skel_hit_cons st₁ h k r₂ rs hreg₁]
                    exact ih st' (Handle.sub h k) h' st₁ hyp

theorem dom_createRoot_self (st : Sys) (f : String) (kind : StoreKind) :
    (alookup (createRoot st f kind).stores f).isSome = true := by
  cases hv : alookup st.files f <;> simp [createRoot, hv, alookup_aset]

/-- C3.  Identity memoization: a second identical resolution request —
through the registry entry point `Stores.getStore` or through the
handle-level `getStore` — returns the very same handle and leaves the
whole process state exactly as the first one left it (so a mutation made
through one resolved handle is visible through the other). -/
theorem identity_memoization (st : Sys) (f : String) (p : List Seg)
    (h h₀ : Handle) (st₁ : Sys) :
    (storesGetStore st f p = (.ok h, st₁) → storesGetStore st₁ f p = (.ok h, st₁))
  ∧ (skelGetStore st h₀ p = (.ok h, st₁) → skelGetStore st₁ h₀ p = (.ok h, st₁)) := by
  constructor
  · intro hyp
    by_cases hdom : (alookup st.stores f).isSome = true
    · cases p with
      | nil =>
          have hred : storesGetStore st f [] = (.ok (.root f), st) := by
            simp [storesGetStore, hdom]
          rw [hred] at hyp
          injection hyp with he hs
          injection he with he'
          subst hs; subst he'
          simp [storesGetStore, hdom]
      | cons k rest =>
          have hred : storesGetStore st f (k :: rest)
              = skelGetStore st (.root f) (k :: rest) := by
            simp [storesGetStore, hdom]
          rw [hred] at hyp
          have hdom₁ : (alookup st₁.stores f).isSome = true := by
            have hd := skel_dom (k :: rest) st (.root f) f hdom
            rw [hyp] at hd
            exact hd
          have hred₁ : storesGetStore st₁ f (k :: rest)
              = skelGetStore st₁ (.root f) (k :: rest) := by
            simp [storesGetStore, hdom₁]
          rw [hred₁]
          exact skel_idem (k :: rest) st (.root f) h st₁ hyp
    · have hdomA := dom_createRoot_self st f .dict
      cases p with
      | nil =>
          have hred : storesGetStore st f [] = (.ok (.root f), createRoot st f .dict) := by
            simp [storesGetStore, hdom]
          rw [hred] at hyp
          injection hyp with he hs
          injection he with he'
          subst hs; subst he'
          simp [storesGetStore, hdomA]
      | cons k rest =>
          have hred : storesGetStore st f (k :: rest)
              = skelGetStore (createRoot st f .dict) (.root f) (k :: rest) := by
            simp [storesGetStore, hdom]
          rw [hred] at hyp
          have hdom₁ : (alookup st₁.stores f).isSome = true := by
            have hd := skel_dom (k :: rest) (createRoot st f .dict) (.root f) f hdomA
            rw [hyp] at hd
            exact hd
          have hred₁ : storesGetStore st₁ f (k :: rest)
              = skelGetStore st₁ (.root f) (k :: rest) := by
            simp [storesGetStore, hdom₁]
          rw [hred₁]
          exact skel_idem (k :: rest) (createRoot st f .dict) (.root f) h st₁ hyp
  · exact skel_idem p st h₀ h st₁

/-- Witness for C3: resolving `["a"]` in a fresh namespace and then
resolving it again returns the identical handle and state. -/
theorem identity_memoization_witness :
    storesGetStore (Sys.mk [] []) "f" ["a"]
      = (.ok (.sub (.root "f") "a"),
         Sys.mk [("f", RootStore.mk .dict (.obj [("a", .obj [])]) [(["a"], .dict)])]
                [("f", .obj [("a", .obj [])])])
  ∧ storesGetStore
      (Sys.mk [("f", RootStore.mk .dict (.obj [("a", .obj [])]) [(["a"], .dict)])]
              [("f", .obj [("a", .obj [])])]) "f" ["a"]
      = (.ok (.sub (.root "f") "a"),
         Sys.mk [("f", RootStore.mk .dict (.obj [("a", .obj [])]) [(["a"], .dict)])]
                [("f", .obj [("a", .obj [])])]) :=
  ⟨rfl,
   (identity_memoization (Sys.mk [] []) "f" ["a"] (.sub (.root "f") "a") (.root "f")
      (Sys.mk [("f", RootStore.mk .dict (.obj [("a", .obj [])]) [(["a"], .dict)])]
              [("f", .obj [("a", .obj [])])])).1 rfl⟩

theorem getItem_ok (doc : JValue) (k : Seg) (w : JValue)
    (h : getItem doc k = .ok w) :
    ∃ gf, doc = .obj gf ∧ alookup gf k = some w := by
  cases doc with
  | obj gf =>
      refine ⟨gf, rfl, ?_⟩
      cases hl : alookup gf k with
      | none => rw [getItem, hl] at h; exact absurd h (by simp)
      | some v =>
          rw [getItem, hl] at h
          injection h with h'
          rw [h']
  | null => exact absurd h (by simp [getItem])
  | bool b => exact absurd h (by simp [getItem])
  | num n => exact absurd h (by simp [getItem])
  | str s => exact absurd h (by simp [getItem])
  | arr xs => exact absurd h (by simp [getItem])

theorem anyFalse {α : Type} (l : List α) (p : α → Bool)
    (h : ∀ x ∈ l, p x = false) : l.any p = false := by
  induction l with
  | nil => rfl
  | cons a as ih =>
      simp only [List.any_cons, Bool.or_eq_false_iff]
      exact ⟨h a (by simp), ih (fun x hx => h x (by simp [hx]))⟩

/-- Setting at `q ++ [k]` on a document whose node at `q` is the object
`fields` succeeds and rewrites exactly that node to `aset fields k v`. -/
theorem setPath_snoc (k : Seg) (v : JValue) (q : List Seg) :
    ∀ (doc : JValue) (fields : List (String × JValue)),
      walk doc q = .ok (.obj fields) →
      ∃ doc', setPath doc (q ++ [k]) v = .ok doc'
            ∧ walk doc' q = .ok (.obj (aset fields k v)) := by
  induction q with
  | nil =>
      intro doc fields hw
      have hd : doc = .obj fields := by
        have hw' : Except.ok (ε := Err) doc = .ok (.obj fields) := hw
        injection hw'
      subst hd
      exact ⟨.obj (aset fields k v), rfl, rfl⟩
  | cons k₀ q' ih =>
      intro doc fields hw
      cases hgi : getItem doc k₀ with
      | error e =>
          rw [walk, hgi] at hw
          exact absurd hw (by simp)
      | ok w =>
          rw [walk, hgi] at hw
          have hw' : walk w q' = .ok (.obj fields) := hw
          obtain ⟨gf, hdoc, hl⟩ := getItem_ok doc k₀ w hgi
          subst hdoc
          obtain ⟨w', hsp, hww⟩ := ih w fields hw'
          have hred : setPath (.obj gf) ((k₀ :: q') ++ [k]) v
              = .ok (.obj (aset gf k₀ w')) := by
            cases q' with
            | nil =>
                simp only [List.nil_append] at hsp
                simp only [List.cons_append, List.nil_append, setPath, hgi]
                rw [show setItem w k v = Except.ok w' from hsp]
                rfl
            | cons a q'' =>
                rw [List.cons_append] at hsp
                simp only [List.cons_append, List.append_eq, setPath, hgi]
                rw [hsp]
                rfl
          refine ⟨.obj (aset gf k₀ w'), hred, ?_⟩
          have hgi' : getItem (.obj (aset gf k₀ w')) k₀ = .ok w' := by
            rw [getItem, alookup_aset, if_pos rfl]
          rw [walk, hgi']
          simp [hww]

/-- Reduction for `StoreSkelleton.getListStore`: a registered last
segment returns the memoized sub-handle with no state change. -/
theorem skelList_hit_nil (st : Sys) (h : Handle) (k : Seg)
    (hr : subRegistered st h.rootFile (h.segs ++ [k]) = true) :
    skelGetListStore st h [k] = (.ok (.sub h k), st) := by
  simp [skelGetListStore, hr]

/-- Reduction for `StoreSkelleton.getListStore`: an unregistered last
segment is created as a list sub-store and returned with the
constructor's state. -/
theorem skelList_miss_ok_nil (st : Sys) (h : Handle) (k : Seg) (u : Unit)
    (st' : Sys)
    (hr : ¬ subRegistered st h.rootFile (h.segs ++ [k]) = true)
    (hcs : createSub st h k .list = (.ok u, st')) :
    skelGetListStore st h [k] = (.ok (.sub h k), st') := by
  simp [skelGetListStore, hr, hcs]

/-- Constructing a sub-store of either kind under a parent whose node is
an object without the key: `contains` answers false, `set` appends
exactly one `(k, baseOf kind)` field to that node, the whole document is
written through, and the new handle is registered. -/
theorem createSub_fresh (st : Sys) (h : Handle) (k : Seg) (kind : StoreKind)
    (r : RootStore) (fields : List (String × JValue))
    (hr : alookup st.stores h.rootFile = some r)
    (hnode : walk r.value h.segs = .ok (.obj fields))
    (hk : ∀ kv ∈ fields, kv.1 ≠ k) :
    ∃ doc₁,
      createSub st h k kind
        = (.ok (), regSub (storeWrite st h.rootFile doc₁) h.rootFile
            (h.segs ++ [k]) kind)
      ∧ docAt (regSub (storeWrite st h.rootFile doc₁) h.rootFile
            (h.segs ++ [k]) kind) h.rootFile = some doc₁
      ∧ walk doc₁ h.segs = .ok (.obj (fields ++ [(k, baseOf kind)]))
      ∧ subRegistered (regSub (storeWrite st h.rootFile doc₁) h.rootFile
            (h.segs ++ [k]) kind) h.rootFile (h.segs ++ [k]) = true := by
  have hmem : memberVal (.str k) (.obj fields) = .ok false := by
    rw [memberVal]
    have hany : fields.any (fun kv => jBeq (.str k) (.str kv.1)) = false := by
      apply anyFalse
      intro kv hkv
      have hj : jBeq (.str k) (.str kv.1) = (k == kv.1) := by simp [jBeq]
      rw [hj]
      exact beq_eq_false_iff_ne.mpr (fun he => hk kv hkv (by rw [he]))
    rw [hany]
  have hcon : Handle.contains st h (.str k) [] = .ok false := by
    rw [hcon_exec h st (.str k) [], List.append_nil]
    simp only [storeContains, hr, containsPath, hnode]
    exact hmem
  obtain ⟨doc₁, hsp, hwalk⟩ := setPath_snoc k (baseOf kind) h.segs r.value fields hnode
  have hsetp : storeSetPath st h.rootFile (baseOf kind) (h.segs ++ [k])
      = (.ok (), storeWrite st h.rootFile doc₁) := by
    simp only [storeSetPath, hr, hsp]
  have hcs : createSub st h k kind
      = (.ok (), regSub (storeWrite st h.rootFile doc₁) h.rootFile
          (h.segs ++ [k]) kind) := by
    simp only [createSub, hcon, hset_exec, hsetp]
  have hdom : (alookup (storeWrite st h.rootFile doc₁).stores h.rootFile).isSome = true := by
    rw [dom_storeWrite]
    simp [hr]
  have hreg₁ := subRegistered_regSub_self (storeWrite st h.rootFile doc₁)
    h.rootFile (h.segs ++ [k]) kind hdom
  have hdoc : docAt (regSub (storeWrite st h.rootFile doc₁) h.rootFile
      (h.segs ++ [k]) kind) h.rootFile = some doc₁ := by
    simp [docAt, regSub, storeWrite, alookup_amod, hr]
  refine ⟨doc₁, hcs, hdoc, ?_, hreg₁⟩
  rw [aset_absent fields k (baseOf kind) hk] at hwalk
  exact hwalk

/-- C4.  Default-insertion idempotence, for both resolution flavours:
resolving a previously-unresolved single segment `k` under a handle whose
node is an object without `k` inserts exactly one default empty structure
— `getStore` makes the parent node `fields ++ [(k, {})]`, `getListStore`
makes it `fields ++ [(k, [])]` — and resolving the same segment again by
the same call finds the memoized child handle and mutates nothing. -/
theorem default_insertion_idempotence (st : Sys) (h : Handle) (k : Seg)
    (r : RootStore) (fields : List (String × JValue))
    (hr : alookup st.stores h.rootFile = some r)
    (hnode : walk r.value h.segs = .ok (.obj fields))
    (hk : ∀ kv ∈ fields, kv.1 ≠ k)
    (hreg : subRegistered st h.rootFile (h.segs ++ [k]) = false) :
    (∃ st₁ doc₁,
      skelGetStore st h [k] = (.ok (.sub h k), st₁)
      ∧ docAt st₁ h.rootFile = some doc₁
      ∧ walk doc₁ h.segs = .ok (.obj (fields ++ [(k, .obj [])]))
      ∧ skelGetStore st₁ h [k] = (.ok (.sub h k), st₁))
  ∧ (∃ st₁ doc₁,
      skelGetListStore st h [k] = (.ok (.sub h k), st₁)
      ∧ docAt st₁ h.rootFile = some doc₁
      ∧ walk doc₁ h.segs = .ok (.obj (fields ++ [(k, .arr [])]))
      ∧ skelGetListStore st₁ h [k] = (.ok (.sub h k), st₁)) := by
  have hreg' : ¬ subRegistered st h.rootFile (h.segs ++ [k]) = true := by
    simp [hreg]
  constructor
  · obtain ⟨doc₁, hcs, hdoc, hwalk, hreg₁⟩ :=
      createSub_fresh st h k .dict r fields hr hnode hk
    exact ⟨_, doc₁, skel_miss_ok_nil st h k ()
        (regSub (storeWrite st h.rootFile doc₁) h.rootFile (h.segs ++ [k]) .dict)
        hreg' hcs,
      hdoc, hwalk,
      skel_hit_nil (regSub (storeWrite st h.rootFile doc₁) h.rootFile
        (h.segs ++ [k]) .dict) h k hreg₁⟩
  · obtain ⟨doc₁, hcs, hdoc, hwalk, hreg₁⟩ :=
      createSub_fresh st h k .list r fields hr hnode hk
    exact ⟨_, doc₁, skelList_miss_ok_nil st h k ()
        (regSub (storeWrite st h.rootFile doc₁) h.rootFile (h.segs ++ [k]) .list)
        hreg' hcs,
      hdoc, hwalk,
      skelList_hit_nil (regSub (storeWrite st h.rootFile doc₁) h.rootFile
        (h.segs ++ [k]) .list) h k hreg₁⟩

/-- Witness for C4: resolving the fresh segment "a" in an empty root
document inserts `{}` once via `getStore` and `[]` once via
`getListStore`; each repeated resolution is a no-op. -/
theorem default_insertion_idempotence_witness :
    (∀ kv ∈ ([] : List (String × JValue)), kv.1 ≠ "a")
  ∧ ((∃ st₁ doc₁,
      skelGetStore (Sys.mk [("f", RootStore.mk .dict (.obj []) [])] [])
          (Handle.root "f") ["a"] = (.ok (.sub (.root "f") "a"), st₁)
      ∧ docAt st₁ (Handle.rootFile (Handle.root "f")) = some doc₁
      ∧ walk doc₁ (Handle.segs (Handle.root "f"))
          = .ok (.obj ([] ++ [("a", .obj [])]))
      ∧ skelGetStore st₁ (Handle.root "f") ["a"] = (.ok (.sub (.root "f") "a"), st₁))
   ∧ (∃ st₁ doc₁,
      skelGetListStore (Sys.mk [("f", RootStore.mk .dict (.obj []) [])] [])
          (Handle.root "f") ["a"] = (.ok (.sub (.root "f") "a"), st₁)
      ∧ docAt st₁ (Handle.rootFile (Handle.root "f")) = some doc₁
      ∧ walk doc₁ (Handle.segs (Handle.root "f"))
          = .ok (.obj ([] ++ [("a", .arr [])]))
      ∧ skelGetListStore st₁ (Handle.root "f") ["a"]
          = (.ok (.sub (.root "f") "a"), st₁))) :=
  ⟨by simp,
   default_insertion_idempotence (Sys.mk [("f", RootStore.mk .dict (.obj []) [])] [])
     (Handle.root "f") "a" (RootStore.mk .dict (.obj []) []) []
     rfl rfl (by simp) rfl⟩

end SimpleStoring
